import Mathlib

/-!
Verification of the event-reminder application logic (src/app.js).

The JavaScript code is shallowly embedded as executable Lean definitions:

* Calendar dates are represented by day numbers.  The code parses
  "YYYY-MM-DD" strings with `new Date(s + "T00:00:00")` and compares the
  resulting local-midnight timestamps; those timestamps are strictly
  monotone in the civil date, and adding 7 calendar days via `setDate`
  adds 7 to the day number, so day-number arithmetic is a faithful model
  of the date-only comparisons in `DateUtils`.  `civilDay` is the usual
  days-from-civil calculation (days since 0000-03-01).
* Wall-clock instants (used by the countdown) are modelled as integer
  milliseconds; `eventDate - now` in JS is exactly the difference of the
  two millisecond values, and `Math.floor` on a nonnegative quotient is
  integer division.
* Strings (event titles, ids, ISO date strings) are Lean `String`s.
  JS `String.prototype.trim` is modelled by `jsTrim` (strip whitespace
  from both ends) and the JS truthiness test `s || default` on strings
  by `jsOr` (the empty string is falsy).  String functions are written
  by structural recursion on the character list so that all definitions
  evaluate inside the kernel.
* The mutable singleton `StateManager` is modelled by explicit state
  passing: each operation takes the current `List Event` and returns the
  new one.  Ambient effects (`Date.now`, `Math.random` inside
  `generateId`, `new Date().toISOString()`) are passed in as explicit
  parameters, and `localStorage` reads/writes are modelled by explicit
  read-result / success-flag parameters.
-/

/-- JS `String.prototype.trim` on the character list: drop whitespace from
both ends. -/
def trimChars (l : List Char) : List Char :=
  ((l.dropWhile Char.isWhitespace).reverse.dropWhile Char.isWhitespace).reverse

/-- Model of JS `title.trim()`. -/
def jsTrim (s : String) : String := ⟨trimChars s.data⟩

/-- Model of the JS string truthiness idiom `s || default` used in
`loadFromStorage`: the empty string (like `undefined`) is falsy and is
replaced by the default. -/
def jsOr (s default : String) : String := if s = "" then default else s

/-- Split a character list at a separator character (model of
`String.prototype.split` as used on "YYYY-MM-DD" strings). -/
def splitOnChar (sep : Char) : List Char → List (List Char)
  | [] => [[]]
  | c :: cs =>
    if c = sep then
      [] :: splitOnChar sep cs
    else
      match splitOnChar sep cs with
      | [] => [[c]]
      | p :: ps => (c :: p) :: ps

/-- Parse a nonempty all-digit character list as a natural number. -/
def parseNatChars (l : List Char) : Option Nat :=
  if l.isEmpty then none
  else if l.all Char.isDigit then
    some (l.foldl (fun acc c => acc * 10 + (c.toNat - 48)) 0)
  else none

/-- Day number of a civil date (days since 0000-03-01, Hinnant
days-from-civil).  Strictly monotone in the calendar date, so comparisons
of the local-midnight timestamps produced by `new Date(s + "T00:00:00")`
agree with comparisons of `civilDay`, and adding 7 calendar days with
`setDate(getDate() + 7)` adds 7. -/
def civilDay (y m d : Nat) : Nat :=
  let y1 := if m ≤ 2 then y - 1 else y
  let era := y1 / 400
  let yoe := y1 % 400
  let mp := (m + 9) % 12
  let doy := (153 * mp + 2) / 5 + d - 1
  let doe := yoe * 365 + yoe / 4 - yoe / 100 + doy
  era * 146097 + doe

/-- Model of `new Date(dateString)` / `DateUtils.parseDate` on a
"YYYY-MM-DD" string: the parsed (year, month, day) triple, or `none` when
the string is not of that shape (an invalid `Date`). -/
def parseISODate (s : String) : Option (Nat × Nat × Nat) :=
  match splitOnChar '-' s.data with
  | [ys, ms, ds] =>
    match parseNatChars ys, parseNatChars ms, parseNatChars ds with
    | some y, some m, some d =>
      if 1 ≤ m ∧ m ≤ 12 ∧ 1 ≤ d ∧ d ≤ 31 then some (y, m, d) else none
    | _, _, _ => none
  | _ => none

/-- Day number of a date string: the key by which the code compares event
dates (`new Date(a.date) - new Date(b.date)` is monotone in this key).
Unparseable strings are mapped to 0; no claim depends on that value. -/
def dateKey (s : String) : Int :=
  match parseISODate s with
  | some (y, m, d) => (civilDay y m d : Int)
  | none => 0

/-- The four temporal statuses returned by `DateUtils.getEventStatus`. -/
inductive EventStatus where
  | today
  | past
  | upcoming
  | future
deriving DecidableEq, Repr

/-- `DateUtils.isToday`: the event day equals the reference day. -/
def isToday (eventDay refDay : Int) : Bool := eventDay = refDay

/-- `DateUtils.isPast`: the event day is strictly before the reference
day (`compareDate < today` on midnight timestamps). -/
def isPast (eventDay refDay : Int) : Bool := eventDay < refDay

/-- `DateUtils.isUpcoming`: strictly after the reference day and at most
7 calendar days after it (`compareDate > today && compareDate <=
sevenDaysLater` with `sevenDaysLater = today + 7 days`). -/
def isUpcoming (eventDay refDay : Int) : Bool :=
  refDay < eventDay && eventDay ≤ refDay + 7

/-- `DateUtils.getEventStatus`: the if-chain over `isToday`, `isPast`,
`isUpcoming`, defaulting to `future`. -/
def getEventStatus (eventDay refDay : Int) : EventStatus :=
  if isToday eventDay refDay then .today
  else if isPast eventDay refDay then .past
  else if isUpcoming eventDay refDay then .upcoming
  else .future

/-- Result record of `DateUtils.getCountdown`. -/
structure CountdownResult where
  days : Int
  hours : Int
  minutes : Int
  seconds : Int
  isPast : Bool
deriving DecidableEq, Repr

/-- `DateUtils.getCountdown`: difference in milliseconds between the
event midnight and now; all-zero with `isPast` when the difference is
not positive, otherwise `Math.floor` division at each unit boundary.
For a positive `diff`, Lean integer division coincides with
`Math.floor(diff / c)`. -/
def getCountdown (eventMs nowMs : Int) : CountdownResult :=
  let diff := eventMs - nowMs
  if diff ≤ 0 then
    { days := 0, hours := 0, minutes := 0, seconds := 0, isPast := true }
  else
    { days := diff / 86400000
      hours := diff % 86400000 / 3600000
      minutes := diff % 3600000 / 60000
      seconds := diff % 60000 / 1000
      isPast := false }

/-- An event record as stored by `StateManager` (all fields are strings,
as in the JSON records). -/
structure Event where
  id : String
  title : String
  date : String
  description : String
  createdAt : String
deriving DecidableEq, Repr

/-- `StateManager.addEvent`: build the new record (trimming title and
description, taking the generated id and current ISO timestamp as
parameters), push it at the end of the list, and return it.  Persistence
is modelled separately in `addEventPersist`. -/
def addEvent (gen nowIso : String) (events : List Event)
    (title dateString descr : String) : Event × List Event :=
  let newEvent : Event :=
    { id := gen
      title := jsTrim title
      date := dateString
      description := jsTrim descr
      createdAt := nowIso }
  (newEvent, events ++ [newEvent])

/-- `StateManager.deleteEvent`: `findIndex` over the list followed by
`splice(index, 1)` removes the first record with the given id and
returns `true`; when no record matches it returns `false` and leaves the
list unchanged.  The recursion below is exactly that first-match
removal. -/
def deleteEvent (eventId : String) : List Event → Bool × List Event
  | [] => (false, [])
  | e :: es =>
    if e.id = eventId then (true, es)
    else
      let r := deleteEvent eventId es
      (r.1, e :: r.2)

/-- `StateManager.updateEvent`: `findIndex` then in-place replacement of
the record at that index by `{...old, title: title.trim(), date,
description: description.trim()}` (spread keeps `id` and `createdAt`);
returns the updated record, or `null` (here `none`) when the id is
absent.  The recursion below is exactly that first-match replacement. -/
def updateEvent (eventId title dateString descr : String) :
    List Event → Option Event × List Event
  | [] => (none, [])
  | e :: es =>
    if e.id = eventId then
      let e1 : Event :=
        { e with title := jsTrim title, date := dateString, description := jsTrim descr }
      (some e1, e1 :: es)
    else
      let r := updateEvent eventId title dateString descr es
      (r.1, e :: r.2)

/-- `StateManager.getEventCount`. -/
def getEventCount (events : List Event) : Nat := events.length

/-- `StateManager.getEventById`: `find` returns the first record with the
given id. -/
def getEventById (eventId : String) (events : List Event) : Option Event :=
  events.find? (fun e => e.id = eventId)

/-- Stable insertion of an event into a list sorted by `dateKey`: walk
past records with strictly smaller key and place the new record before
the first record whose key is not smaller.  Inserting earlier elements
after later ones this way reproduces the stable order of
`Array.prototype.sort`. -/
def insertByDate (a : Event) : List Event → List Event
  | [] => [a]
  | b :: l =>
    if dateKey b.date < dateKey a.date then b :: insertByDate a l
    else a :: b :: l

/-- `StateManager.getSortedEvents`: `[...this.events].sort((a, b) => new
Date(a.date) - new Date(b.date))`.  ECMAScript `Array.prototype.sort` is
required to produce a stable, sorted copy; this stable insertion sort by
the same comparator key is extensionally the same function. -/
def getSortedEvents : List Event → List Event
  | [] => []
  | a :: l => insertByDate a (getSortedEvents l)

/-- Result of `FormValidator.validateTitle` / `validateDate`. -/
structure ValidationResult where
  valid : Bool
  message : String
deriving DecidableEq, Repr

/-- `FormValidator.validateTitle`: required / at-least-3 / at-most-100 on
the trimmed title (the `!title` test is subsumed by the zero-length
test). -/
def validateTitle (title : String) : ValidationResult :=
  if (jsTrim title).length = 0 then
    { valid := false, message := "Event title is required" }
  else if (jsTrim title).length < 3 then
    { valid := false, message := "Event title must be at least 3 characters" }
  else if (jsTrim title).length > 100 then
    { valid := false, message := "Event title must not exceed 100 characters" }
  else
    { valid := true, message := "" }

/-- `FormValidator.validateDate`: required, then parseability of the date
string (`isNaN(selectedDate.getTime())` detects an unparseable date). -/
def validateDate (dateString : String) : ValidationResult :=
  if dateString = "" then
    { valid := false, message := "Event date is required" }
  else if (parseISODate dateString).isNone then
    { valid := false, message := "Invalid date format" }
  else
    { valid := true, message := "" }

/-- Result of `FormValidator.validateForm`: overall flag plus the
per-field error messages collected in the `errors` object. -/
structure FormValidation where
  isValid : Bool
  titleError : Option String
  dateError : Option String
deriving DecidableEq, Repr

/-- `FormValidator.validateForm`: validate both fields, record each
failure message under its field. -/
def validateForm (title dateString : String) : FormValidation :=
  let tv := validateTitle title
  let dv := validateDate dateString
  { isValid := tv.valid && dv.valid
    titleError := if tv.valid then none else some tv.message
    dateError := if dv.valid then none else some dv.message }

/-- Result of the add path of `EventHandlers.handleSubmit` restricted to
its state effect: the store after the call, the created record if any,
and the per-field error messages displayed on validation failure. -/
structure SubmitResult where
  events : List Event
  created : Option Event
  titleError : Option String
  dateError : Option String
deriving DecidableEq, Repr

/-- Add path of `EventHandlers.handleSubmit`: validate the form; on
failure show the per-field errors and return without touching the store;
on success call `StateManager.addEvent`. -/
def handleSubmitAdd (gen nowIso : String) (events : List Event)
    (title dateString descr : String) : SubmitResult :=
  let v := validateForm title dateString
  if v.isValid then
    let r := addEvent gen nowIso events title dateString descr
    { events := r.2, created := some r.1, titleError := none, dateError := none }
  else
    { events := events, created := none
      titleError := v.titleError, dateError := v.dateError }

/-- The per-record repair in `StateManager.loadFromStorage`:
`{id: e.id || generateId(), title: e.title || "Untitled Event", date:
e.date, description: e.description || "", createdAt: e.createdAt || new
Date().toISOString()}`.  The generated id and the current timestamp are
parameters. -/
def repairEvent (genId nowIso : String) (e : Event) : Event :=
  { id := jsOr e.id genId
    title := jsOr e.title "Untitled Event"
    date := e.date
    description := jsOr e.description ""
    createdAt := jsOr e.createdAt nowIso }

/-- The repair `map` of `StateManager.loadFromStorage`.  Each call of
`generateId` may return a different string, so the supply of generated
ids is a function of the record position. -/
def repairEvents (gen : Nat → String) (nowIso : String) : List Event → List Event
  | [] => []
  | e :: es => repairEvent (gen 0) nowIso e :: repairEvents (fun i => gen (i + 1)) nowIso es

/-- `StateManager.loadFromStorage`: a throwing read or a parse error
(`Except.error`) is caught and yields the empty list; a missing key
(`none`) yields the empty list; otherwise the parsed records are
repaired. -/
def loadFromStorage (gen : Nat → String) (nowIso : String)
    (readResult : Except Unit (Option (List Event))) : List Event :=
  match readResult with
  | .error _ => []
  | .ok none => repairEvents gen nowIso []
  | .ok (some evs) => repairEvents gen nowIso evs

/-- `StateManager.saveToStorage`: attempt to mirror the in-memory list to
the key-value store.  `setOk` says whether `localStorage.setItem`
succeeds; on failure the exception is caught, the durable mirror is left
as it was, and `false` is returned. -/
def saveToStorage (setOk : Bool) (mirror : Option (List Event))
    (events : List Event) : Bool × Option (List Event) :=
  if setOk then (true, some events) else (false, mirror)

/-- State after a persisted mutation: the in-memory list, the durable
mirror, and the boolean result of the write. -/
structure PersistResult where
  events : List Event
  mirror : Option (List Event)
  saved : Bool
deriving DecidableEq, Repr

/-- `StateManager.addEvent` including its `saveToStorage` call: the push
happens first and is unconditional; the save result is not consulted. -/
def addEventPersist (gen nowIso : String) (setOk : Bool)
    (mirror : Option (List Event)) (events : List Event)
    (title dateString descr : String) : Event × PersistResult :=
  let r := addEvent gen nowIso events title dateString descr
  let s := saveToStorage setOk mirror r.2
  (r.1, { events := r.2, mirror := s.2, saved := s.1 })

/-- `StateManager.deleteEvent` including its `saveToStorage` call (the
save only happens when a record was removed, as in the code). -/
def deleteEventPersist (setOk : Bool) (mirror : Option (List Event))
    (eventId : String) (events : List Event) : Bool × PersistResult :=
  let r := deleteEvent eventId events
  if r.1 then
    let s := saveToStorage setOk mirror r.2
    (true, { events := r.2, mirror := s.2, saved := s.1 })
  else
    (false, { events := r.2, mirror := mirror, saved := false })

/-- `StateManager.updateEvent` including its `saveToStorage` call (the
save only happens when the record was found, as in the code). -/
def updateEventPersist (setOk : Bool) (mirror : Option (List Event))
    (eventId title dateString descr : String) (events : List Event) :
    Option Event × PersistResult :=
  let r := updateEvent eventId title dateString descr events
  match r.1 with
  | some e1 =>
    let s := saveToStorage setOk mirror r.2
    (some e1, { events := r.2, mirror := s.2, saved := s.1 })
  | none =>
    (none, { events := r.2, mirror := mirror, saved := false })

/-- The `localStorage` key `reminder_sent_${event.id}_${todayIso}` that
marks a reminder as sent. -/
def reminderKey (eventId day : String) : String :=
  "reminder_sent_" ++ eventId ++ "_" ++ day

/-- The `forEach` loop of `EmailService.checkAndSendReminders`: for each
event whose date is today and whose marker key is not in the store, send
a reminder (collected in the first component) and put the marker key into
the store. -/
def remindersLoop (todayDay : Int) (todayIso : String) :
    List Event → List String → List Event × List String
  | [], kv => ([], kv)
  | e :: es, kv =>
    if dateKey e.date = todayDay then
      if reminderKey e.id todayIso ∈ kv then
        remindersLoop todayDay todayIso es kv
      else
        let r := remindersLoop todayDay todayIso es (reminderKey e.id todayIso :: kv)
        (e :: r.1, r.2)
    else
      remindersLoop todayDay todayIso es kv

/-- `EmailService.checkAndSendReminders`: iterate the loop over
`StateManager.getSortedEvents()`.  `todayDay` is the day number of
today, `todayIso` its "YYYY-MM-DD" string (both derived from the same
clock in the code); `kv` is the set of marker keys present in
`localStorage`.  Returns the list of events a reminder was sent for and
the updated marker set. -/
def checkAndSendReminders (todayDay : Int) (todayIso : String)
    (events : List Event) (kv : List String) : List Event × List String :=
  remindersLoop todayDay todayIso (getSortedEvents events) kv

/-- Claim C1: for every event day and reference day, `getEventStatus`
returns exactly one of the four statuses, characterised by: `today` iff
the days are equal, `past` iff the event day is strictly before,
`upcoming` iff it is strictly after and at most 7 days after (7th day
inclusive), `future` iff it is more than 7 days after; with reference
date 2026-01-10, event date 2026-01-17 is `upcoming` and 2026-01-18 is
`future`. -/
theorem getEventStatus_correct (e r : Int) :
    (getEventStatus e r = .today ↔ e = r) ∧
    (getEventStatus e r = .past ↔ e < r) ∧
    (getEventStatus e r = .upcoming ↔ r < e ∧ e ≤ r + 7) ∧
    (getEventStatus e r = .future ↔ r + 7 < e) ∧
    getEventStatus (civilDay 2026 1 17) (civilDay 2026 1 10) = .upcoming ∧
    getEventStatus (civilDay 2026 1 18) (civilDay 2026 1 10) = .future := by
  refine ⟨?_, ?_, ?_, ?_, by decide, by decide⟩ <;>
    · unfold getEventStatus isToday isPast isUpcoming
      split_ifs with h1 h2 h3 <;> simp_all <;> omega

/-- Claim C4: `getCountdown` marks an event at or before now as past with
all four fields zero; for a strictly future event it is not past and the
fields are the truncating unit decomposition of the millisecond
difference (hours below 24, minutes and seconds below 60, and the fields
recompose to the difference in whole seconds); the 2026-01-10 midnight
event seen from 2026-01-08 12:00:00 gives 1 day 12 hours 0 minutes 0
seconds. -/
theorem getCountdown_correct (eventMs nowMs : Int) :
    (eventMs ≤ nowMs →
      getCountdown eventMs nowMs =
        { days := 0, hours := 0, minutes := 0, seconds := 0, isPast := true }) ∧
    (nowMs < eventMs →
      (getCountdown eventMs nowMs).isPast = false ∧
      0 ≤ (getCountdown eventMs nowMs).days ∧
      0 ≤ (getCountdown eventMs nowMs).hours ∧
      (getCountdown eventMs nowMs).hours < 24 ∧
      0 ≤ (getCountdown eventMs nowMs).minutes ∧
      (getCountdown eventMs nowMs).minutes < 60 ∧
      0 ≤ (getCountdown eventMs nowMs).seconds ∧
      (getCountdown eventMs nowMs).seconds < 60 ∧
      (((getCountdown eventMs nowMs).days * 24 + (getCountdown eventMs nowMs).hours) * 60
          + (getCountdown eventMs nowMs).minutes) * 60 + (getCountdown eventMs nowMs).seconds
        = (eventMs - nowMs) / 1000) ∧
    getCountdown ((civilDay 2026 1 10 : Int) * 86400000)
        ((civilDay 2026 1 8 : Int) * 86400000 + 12 * 3600000)
      = { days := 1, hours := 12, minutes := 0, seconds := 0, isPast := false } := by
  refine ⟨fun h => ?_, fun h => ?_, by decide⟩
  · simp only [getCountdown]
    rw [if_pos (by omega)]
  · have hd : ¬ (eventMs - nowMs ≤ 0) := by omega
    simp only [getCountdown, if_neg hd]
    refine ⟨trivial, ?_, ?_, ?_, ?_, ?_, ?_, ?_, ?_⟩ <;> omega

/-- Concrete instantiation of both hypothesised branches of
`getCountdown_correct`. -/
theorem getCountdown_correct_witness :
    getCountdown 5 5 = { days := 0, hours := 0, minutes := 0, seconds := 0, isPast := true } ∧
    (getCountdown 129600000 0).isPast = false :=
  ⟨(getCountdown_correct 5 5).1 (by decide),
   ((getCountdown_correct 129600000 0).2.1 (by decide)).1⟩

/-- Claim C3: when the trimmed title is shorter than 3 or longer than 100
characters, the add path fails with a title-scoped validation message (a
structured per-field message, returned, not thrown), no record is
created, and the store and its count are unchanged. -/
theorem handleSubmitAdd_title_invalid (gen nowIso : String) (events : List Event)
    (title dateString descr : String)
    (h : (jsTrim title).length < 3 ∨ 100 < (jsTrim title).length) :
    (validateTitle title).valid = false ∧
    (handleSubmitAdd gen nowIso events title dateString descr).titleError
      = some (validateTitle title).message ∧
    (handleSubmitAdd gen nowIso events title dateString descr).created = none ∧
    (handleSubmitAdd gen nowIso events title dateString descr).events = events ∧
    getEventCount (handleSubmitAdd gen nowIso events title dateString descr).events
      = getEventCount events := by
  have hv : (validateTitle title).valid = false := by
    unfold validateTitle
    split_ifs <;> first | rfl | omega
  refine ⟨hv, ?_, ?_, ?_, ?_⟩ <;>
    simp [handleSubmitAdd, validateForm, hv, getEventCount]

/-- Concrete instantiation of `handleSubmitAdd_title_invalid`: a 2-letter
title is rejected and the store stays empty. -/
theorem handleSubmitAdd_title_invalid_witness :
    ((jsTrim "ab").length < 3 ∨ 100 < (jsTrim "ab").length) ∧
    (handleSubmitAdd "id1" "t0" [] "ab" "2026-01-01" "").events = [] :=
  ⟨Or.inl (by decide),
   (handleSubmitAdd_title_invalid "id1" "t0" [] "ab" "2026-01-01" ""
     (Or.inl (by decide))).2.2.2.1⟩

/-- Claim C9: persistence failures never block or roll back in-memory
mutations.  The in-memory list after add/update/delete does not depend on
whether the durable write succeeds, the write result is surfaced as a
boolean (`saved = setOk` for add; a total function, so no exception
escapes), a failed write leaves the durable mirror untouched, and an
unreadable or malformed store at startup loads as the empty
collection. -/
theorem persistence_failures_graceful (gen nowIso : String) (setOk : Bool)
    (mirror : Option (List Event)) (events : List Event)
    (title dateString descr eventId : String) (g : Nat → String) :
    (addEventPersist gen nowIso setOk mirror events title dateString descr).2.events
      = events ++ [(addEvent gen nowIso events title dateString descr).1] ∧
    (addEventPersist gen nowIso setOk mirror events title dateString descr).2.saved = setOk ∧
    (addEventPersist gen nowIso false mirror events title dateString descr).2.mirror = mirror ∧
    (deleteEventPersist setOk mirror eventId events).1 = (deleteEvent eventId events).1 ∧
    (deleteEventPersist setOk mirror eventId events).2.events = (deleteEvent eventId events).2 ∧
    (updateEventPersist setOk mirror eventId title dateString descr events).1
      = (updateEvent eventId title dateString descr events).1 ∧
    (updateEventPersist setOk mirror eventId title dateString descr events).2.events
      = (updateEvent eventId title dateString descr events).2 ∧
    loadFromStorage g nowIso (.error ()) = [] ∧
    loadFromStorage g nowIso (.ok none) = [] := by
  refine ⟨rfl, ?_, rfl, ?_, ?_, ?_, ?_, rfl, rfl⟩
  · cases setOk <;> rfl
  · rcases hb : deleteEvent eventId events with ⟨b, es2⟩
    cases b <;> simp [deleteEventPersist, saveToStorage, hb]
  · rcases hb : deleteEvent eventId events with ⟨b, es2⟩
    cases b <;> simp [deleteEventPersist, saveToStorage, hb]
  · unfold updateEventPersist
    rcases hu : (updateEvent eventId title dateString descr events).1 with _ | e1 <;>
      simp [hu]
  · unfold updateEventPersist
    rcases hu : (updateEvent eventId title dateString descr events).1 with _ | e1 <;>
      simp [hu]

/-- Inserting an event is a permutation: the result contains the new
record and the old ones. -/
theorem insertByDate_perm (a : Event) (l : List Event) :
    List.Perm (insertByDate a l) (a :: l) := by
  induction l with
  | nil => exact List.Perm.refl _
  | cons b t ih =>
    unfold insertByDate
    split
    · exact (ih.cons b).trans (List.Perm.swap a b t)
    · exact List.Perm.refl _

/-- `getSortedEvents` returns a permutation of the store. -/
theorem getSortedEvents_perm (l : List Event) : List.Perm (getSortedEvents l) l := by
  induction l with
  | nil => exact List.Perm.refl _
  | cons a t ih => exact (insertByDate_perm a (getSortedEvents t)).trans (ih.cons a)

/-- Insertion preserves sortedness by date key. -/
theorem insertByDate_sorted (a : Event) (l : List Event)
    (h : l.Pairwise (fun x y => dateKey x.date ≤ dateKey y.date)) :
    (insertByDate a l).Pairwise (fun x y => dateKey x.date ≤ dateKey y.date) := by
  induction l with
  | nil => simp [insertByDate]
  | cons b t ih =>
    rcases List.pairwise_cons.mp h with ⟨hb, ht⟩
    unfold insertByDate
    split
    case isTrue hlt =>
      refine List.pairwise_cons.mpr ⟨?_, ih ht⟩
      intro x hx
      rcases List.mem_cons.mp ((insertByDate_perm a t).mem_iff.mp hx) with rfl | hxt
      · omega
      · exact hb x hxt
    case isFalse hge =>
      refine List.pairwise_cons.mpr ⟨?_, h⟩
      intro x hx
      rcases List.mem_cons.mp hx with rfl | hxt
      · omega
      · have := hb x hxt
        omega

/-- `getSortedEvents` is sorted by ascending date key. -/
theorem getSortedEvents_sorted (l : List Event) :
    (getSortedEvents l).Pairwise (fun x y => dateKey x.date ≤ dateKey y.date) := by
  induction l with
  | nil => simp [getSortedEvents]
  | cons a t ih => exact insertByDate_sorted a (getSortedEvents t) ih

/-- Stability of the insertion step: restricted to any fixed date key,
inserting either prepends the new record to that key class (it goes in
front of the later records with the same key only if none precede it,
i.e. exactly when its own key matches) or leaves the class untouched. -/
theorem filter_insertByDate (a : Event) (l : List Event) (K : Int) :
    (insertByDate a l).filter (fun e => dateKey e.date == K)
      = if dateKey a.date = K
        then a :: l.filter (fun e => dateKey e.date == K)
        else l.filter (fun e => dateKey e.date == K) := by
  induction l with
  | nil =>
    by_cases hK : dateKey a.date = K <;> simp [insertByDate, List.filter_cons, beq_iff_eq, hK]
  | cons b t ih =>
    unfold insertByDate
    split
    case isTrue hlt =>
      by_cases hK : dateKey a.date = K
      · have hbK : ¬ (dateKey b.date = K) := by omega
        simp [List.filter_cons, beq_iff_eq, hK, hbK, ih]
      · by_cases hbK : dateKey b.date = K <;>
          simp [List.filter_cons, beq_iff_eq, hK, hbK, ih]
    case isFalse hge =>
      by_cases hK : dateKey a.date = K <;>
        by_cases hbK : dateKey b.date = K <;>
          simp [List.filter_cons, beq_iff_eq, hK, hbK]

/-- Stability of the sort: for every date key, the subsequence of records
with that key is exactly the input subsequence with that key (relative
insertion order preserved). -/
theorem filter_getSortedEvents (l : List Event) (K : Int) :
    (getSortedEvents l).filter (fun e => dateKey e.date == K)
      = l.filter (fun e => dateKey e.date == K) := by
  induction l with
  | nil => rfl
  | cons a t ih =>
    unfold getSortedEvents
    rw [filter_insertByDate]
    by_cases hK : dateKey a.date = K <;> simp [List.filter_cons, beq_iff_eq, hK, ih]

/-- Claim C2: `getSortedEvents` returns all stored records (a
permutation), ordered by ascending date key, and stably: restricted to
each date key the output preserves the relative insertion order; in
particular inserting dates [2026-03-01, 2026-01-01, 2026-03-01] in that
order sorts to [2026-01-01, 2026-03-01 (first), 2026-03-01 (second)]. -/
theorem getSortedEvents_correct (l : List Event) :
    List.Perm (getSortedEvents l) l ∧
    (getSortedEvents l).Pairwise (fun x y => dateKey x.date ≤ dateKey y.date) ∧
    (∀ K : Int, (getSortedEvents l).filter (fun e => dateKey e.date == K)
        = l.filter (fun e => dateKey e.date == K)) ∧
    getSortedEvents
        [{ id := "a", title := "First", date := "2026-03-01", description := "", createdAt := "t1" },
         { id := "b", title := "Second", date := "2026-01-01", description := "", createdAt := "t2" },
         { id := "c", title := "Third", date := "2026-03-01", description := "", createdAt := "t3" }]
      = [{ id := "b", title := "Second", date := "2026-01-01", description := "", createdAt := "t2" },
         { id := "a", title := "First", date := "2026-03-01", description := "", createdAt := "t1" },
         { id := "c", title := "Third", date := "2026-03-01", description := "", createdAt := "t3" }] :=
  ⟨getSortedEvents_perm l, getSortedEvents_sorted l,
   fun K => filter_getSortedEvents l K, by decide⟩

/-- `updateEvent` on a store with no matching id returns `none` and
leaves the store unchanged. -/
theorem updateEvent_not_found (eventId title dateString descr : String) (l : List Event)
    (h : ∀ e ∈ l, e.id ≠ eventId) :
    updateEvent eventId title dateString descr l = (none, l) := by
  induction l with
  | nil => rfl
  | cons a t ih =>
    unfold updateEvent
    rw [if_neg (h a (List.mem_cons_self a t))]
    simp [ih (fun e he => h e (List.mem_cons_of_mem a he))]

/-- `updateEvent` at the first matching record replaces exactly that
record by its updated copy. -/
theorem updateEvent_found (eventId title dateString descr : String)
    (l1 : List Event) (e : Event) (l2 : List Event)
    (h1 : ∀ x ∈ l1, x.id ≠ eventId) (he : e.id = eventId) :
    updateEvent eventId title dateString descr (l1 ++ e :: l2)
      = (some { id := e.id, title := jsTrim title, date := dateString,
                description := jsTrim descr, createdAt := e.createdAt },
         l1 ++ { id := e.id, title := jsTrim title, date := dateString,
                 description := jsTrim descr, createdAt := e.createdAt } :: l2) := by
  induction l1 with
  | nil =>
    simp only [List.nil_append]
    unfold updateEvent
    rw [if_pos he]
  | cons a t ih =>
    simp only [List.cons_append]
    unfold updateEvent
    rw [if_neg (h1 a (List.mem_cons_self a t))]
    simp [ih (fun x hx => h1 x (List.mem_cons_of_mem a hx))]

/-- Claim C5: `updateEvent` returns a not-found indicator and leaves the
store unchanged when the id is absent; when the id is present (the first
matching record), it replaces exactly that record, keeping its `id` and
`createdAt`, replacing `title`, `date`, `description`, leaving every
other record unchanged, and returns the updated record. -/
theorem updateEvent_correct (eventId title dateString descr : String) (events : List Event) :
    ((∀ e ∈ events, e.id ≠ eventId) →
      updateEvent eventId title dateString descr events = (none, events)) ∧
    (∀ l1 e l2, events = l1 ++ e :: l2 → (∀ x ∈ l1, x.id ≠ eventId) → e.id = eventId →
      updateEvent eventId title dateString descr events
        = (some { id := e.id, title := jsTrim title, date := dateString,
                  description := jsTrim descr, createdAt := e.createdAt },
           l1 ++ { id := e.id, title := jsTrim title, date := dateString,
                   description := jsTrim descr, createdAt := e.createdAt } :: l2)) := by
  constructor
  · exact updateEvent_not_found eventId title dateString descr events
  · rintro l1 e l2 rfl h1 he
    exact updateEvent_found eventId title dateString descr l1 e l2 h1 he

/-- Concrete instantiation of both branches of `updateEvent_correct`:
an absent id is a no-op returning `none`; a present id gets exactly its
title/date/description replaced with `id`/`createdAt` kept. -/
theorem updateEvent_correct_witness :
    updateEvent "y" "New Title" "2026-02-02" "d"
        [{ id := "x", title := "Old", date := "2026-01-01", description := "", createdAt := "c0" }]
      = (none,
         [{ id := "x", title := "Old", date := "2026-01-01", description := "", createdAt := "c0" }]) ∧
    updateEvent "x" "New Title" "2026-02-02" "d"
        [{ id := "x", title := "Old", date := "2026-01-01", description := "", createdAt := "c0" }]
      = (some { id := "x", title := jsTrim "New Title", date := "2026-02-02",
                description := jsTrim "d", createdAt := "c0" },
         [{ id := "x", title := jsTrim "New Title", date := "2026-02-02",
            description := jsTrim "d", createdAt := "c0" }]) :=
  ⟨(updateEvent_correct "y" "New Title" "2026-02-02" "d" _).1 (by decide),
   (updateEvent_correct "x" "New Title" "2026-02-02" "d" _).2 []
     { id := "x", title := "Old", date := "2026-01-01", description := "", createdAt := "c0" } []
     rfl (by simp) rfl⟩

/-- `deleteEvent` on a store with no matching id returns `false` and
leaves the store unchanged. -/
theorem deleteEvent_not_found (eventId : String) (l : List Event)
    (h : ∀ e ∈ l, e.id ≠ eventId) : deleteEvent eventId l = (false, l) := by
  induction l with
  | nil => rfl
  | cons a t ih =>
    unfold deleteEvent
    rw [if_neg (h a (List.mem_cons_self a t))]
    simp [ih (fun e he => h e (List.mem_cons_of_mem a he))]

/-- `deleteEvent` at the first matching record removes exactly that
record and returns `true`. -/
theorem deleteEvent_found (eventId : String) (l1 : List Event) (e : Event) (l2 : List Event)
    (h1 : ∀ x ∈ l1, x.id ≠ eventId) (he : e.id = eventId) :
    deleteEvent eventId (l1 ++ e :: l2) = (true, l1 ++ l2) := by
  induction l1 with
  | nil =>
    simp only [List.nil_append]
    unfold deleteEvent
    rw [if_pos he]
  | cons a t ih =>
    simp only [List.cons_append]
    unfold deleteEvent
    rw [if_neg (h1 a (List.mem_cons_self a t))]
    simp [ih (fun x hx => h1 x (List.mem_cons_of_mem a hx))]

/-- A list containing a record with a given id splits at the first such
record. -/
theorem exists_first_id_split (eventId : String) (l : List Event)
    (hmem : ∃ e ∈ l, e.id = eventId) :
    ∃ l1 e l2, l = l1 ++ e :: l2 ∧ (∀ x ∈ l1, x.id ≠ eventId) ∧ e.id = eventId := by
  induction l with
  | nil => simp at hmem
  | cons a t ih =>
    by_cases ha : a.id = eventId
    · exact ⟨[], a, t, rfl, by simp, ha⟩
    · have hmem2 : ∃ e ∈ t, e.id = eventId := by
        rcases hmem with ⟨e, he, hei⟩
        rcases List.mem_cons.mp he with rfl | het
        · exact absurd hei ha
        · exact ⟨e, het, hei⟩
      obtain ⟨l1, e, l2, rfl, h1, he⟩ := ih hmem2
      exact ⟨a :: l1, e, l2, rfl, by
        intro x hx
        rcases List.mem_cons.mp hx with rfl | hx2
        · exact ha
        · exact h1 x hx2, he⟩

/-- Claim C6: deleting a present id twice returns `true` then `false`,
the store length drops by exactly one in total, and the second call
leaves the store unchanged (idempotent no-op on the now-absent id). -/
theorem deleteEvent_idempotent (eventId : String) (events : List Event)
    (hnd : (events.map Event.id).Nodup) (hmem : ∃ e ∈ events, e.id = eventId) :
    (deleteEvent eventId events).1 = true ∧
    (deleteEvent eventId (deleteEvent eventId events).2).1 = false ∧
    (deleteEvent eventId (deleteEvent eventId events).2).2 = (deleteEvent eventId events).2 ∧
    (deleteEvent eventId events).2.length + 1 = events.length := by
  obtain ⟨l1, e, l2, rfl, hl1, he⟩ := exists_first_id_split eventId events hmem
  have hdel := deleteEvent_found eventId l1 e l2 hl1 he
  have hl2 : ∀ x ∈ l2, x.id ≠ eventId := by
    have hnd2 : ((e :: l2).map Event.id).Nodup := by
      rw [List.map_append] at hnd
      exact hnd.of_append_right
    have hnotin : e.id ∉ l2.map Event.id := (List.nodup_cons.mp hnd2).1
    intro x hx hxe
    exact hnotin (by
      rw [he, ← hxe]
      exact List.mem_map_of_mem Event.id hx)
  have hrest : ∀ x ∈ l1 ++ l2, x.id ≠ eventId := by
    intro x hx
    rcases List.mem_append.mp hx with h | h
    · exact hl1 x h
    · exact hl2 x h
  have hdel2 := deleteEvent_not_found eventId (l1 ++ l2) hrest
  rw [hdel]
  simp [hdel2]
  omega

/-- Concrete instantiation of `deleteEvent_idempotent` on a two-record
store. -/
theorem deleteEvent_idempotent_witness :
    (deleteEvent "a"
        [{ id := "a", title := "T1", date := "2026-01-01", description := "", createdAt := "c1" },
         { id := "b", title := "T2", date := "2026-01-02", description := "", createdAt := "c2" }]).1
      = true ∧
    (deleteEvent "a" (deleteEvent "a"
        [{ id := "a", title := "T1", date := "2026-01-01", description := "", createdAt := "c1" },
         { id := "b", title := "T2", date := "2026-01-02", description := "", createdAt := "c2" }]).2).1
      = false :=
  ⟨(deleteEvent_idempotent "a" _ (by decide) ⟨_, List.mem_cons_self _ _, rfl⟩).1,
   (deleteEvent_idempotent "a" _ (by decide) ⟨_, List.mem_cons_self _ _, rfl⟩).2.1⟩

/-- `s || ""` is the identity: an empty description defaults to the
empty string. -/
theorem jsOr_empty_default (s : String) : jsOr s "" = s := by
  unfold jsOr
  split <;> simp_all

/-- `s || d` keeps a truthy (nonempty) `s`. -/
theorem jsOr_of_ne (s d : String) (h : s ≠ "") : jsOr s d = s :=
  if_neg h

/-- Repairing a record whose `id`, `title` and `createdAt` are already
present (truthy) changes nothing. -/
theorem repairEvent_complete (genId nowIso : String) (e : Event)
    (hid : e.id ≠ "") (hti : e.title ≠ "") (hca : e.createdAt ≠ "") :
    repairEvent genId nowIso e = e := by
  unfold repairEvent
  rw [jsOr_empty_default, jsOr_of_ne _ _ hid, jsOr_of_ne _ _ hti, jsOr_of_ne _ _ hca]

/-- After one repair pass with nonempty generated ids and a nonempty
timestamp, every record has truthy `id`, `title` and `createdAt`. -/
theorem repairEvents_complete (gen : Nat → String) (nowIso : String) (l : List Event)
    (hg : ∀ i, gen i ≠ "") (hn : nowIso ≠ "") :
    ∀ e ∈ repairEvents gen nowIso l, e.id ≠ "" ∧ e.title ≠ "" ∧ e.createdAt ≠ "" := by
  induction l generalizing gen with
  | nil => simp [repairEvents]
  | cons a t ih =>
    intro e he
    rcases List.mem_cons.mp he with rfl | het
    · have h0 := hg 0
      refine ⟨?_, ?_, ?_⟩ <;>
        · unfold repairEvent jsOr
          dsimp only
          split <;> simp_all
    · exact ih (fun i => gen (i + 1)) (fun i => hg (i + 1)) e het

/-- A repair pass is the identity on lists of already-complete
records. -/
theorem repairEvents_of_complete (gen : Nat → String) (nowIso : String) (l : List Event)
    (h : ∀ e ∈ l, e.id ≠ "" ∧ e.title ≠ "" ∧ e.createdAt ≠ "") :
    repairEvents gen nowIso l = l := by
  induction l generalizing gen with
  | nil => rfl
  | cons a t ih =>
    obtain ⟨h1, h2, h3⟩ := h a (List.mem_cons_self a t)
    unfold repairEvents
    rw [repairEvent_complete _ _ _ h1 h2 h3,
      ih (fun i => gen (i + 1)) (fun e he => h e (List.mem_cons_of_mem a he))]

/-- The repair of a single record does not depend on the generated id or
the timestamp when `id` and `createdAt` are already present. -/
theorem repairEvent_indep (g1 n1 g2 n2 : String) (e : Event)
    (hid : e.id ≠ "") (hca : e.createdAt ≠ "") :
    repairEvent g2 n2 e = repairEvent g1 n1 e := by
  unfold repairEvent
  simp only [jsOr_of_ne _ _ hid, jsOr_of_ne _ _ hca]

/-- Claim C7 (amended): the repair pass fills the documented defaults and
is idempotent — a second pass, with any generated ids and timestamp,
returns the first pass output unchanged; it is deterministic only on
records that already carry an `id` and a `createdAt`, since those two
defaults are drawn from the clock and the random generator. -/
theorem repairEvents_idempotent (gen1 : Nat → String) (now1 : String) (l : List Event)
    (hg : ∀ i, gen1 i ≠ "") (hn : now1 ≠ "") :
    (∀ (gen2 : Nat → String) (now2 : String),
      repairEvents gen2 now2 (repairEvents gen1 now1 l) = repairEvents gen1 now1 l) ∧
    ((∀ e ∈ l, e.id ≠ "" ∧ e.createdAt ≠ "") →
      ∀ (gen2 : Nat → String) (now2 : String),
        repairEvents gen2 now2 l = repairEvents gen1 now1 l) ∧
    (∀ e ∈ repairEvents gen1 now1 l, e.id ≠ "" ∧ e.title ≠ "" ∧ e.createdAt ≠ "") := by
  refine ⟨?_, ?_, repairEvents_complete gen1 now1 l hg hn⟩
  · intro gen2 now2
    exact repairEvents_of_complete gen2 now2 _ (repairEvents_complete gen1 now1 l hg hn)
  · intro hc gen2 now2
    induction l generalizing gen1 gen2 with
    | nil => rfl
    | cons a t ih =>
      obtain ⟨h1, h2⟩ := hc a (List.mem_cons_self a t)
      unfold repairEvents
      rw [repairEvent_indep (gen1 0) now1 (gen2 0) now2 a h1 h2,
        ih (fun i => gen1 (i + 1)) (fun i => hg (i + 1))
          (fun e he => hc e (List.mem_cons_of_mem a he)) (fun i => gen2 (i + 1))]

/-- Counterexample to the determinism half of claim C7: a stored record
with a missing id is repaired with the freshly generated id, so two runs
of the startup repair on the same stored data (at different times, hence
different generated ids) produce different records. -/
theorem repairEvents_not_deterministic :
    repairEvents (fun _ => "event_1700000000000_aaaaaaaaa") "2026-01-01T00:00:00.000Z"
        [{ id := "", title := "Party", date := "2026-05-01", description := "", createdAt := "x" }]
      ≠ repairEvents (fun _ => "event_1700000000001_bbbbbbbbb") "2026-01-01T00:00:00.000Z"
        [{ id := "", title := "Party", date := "2026-05-01", description := "", createdAt := "x" }] := by
  decide

/-- Concrete instantiation of `repairEvents_idempotent`: repairing an
already-repaired singleton store is the identity, whatever the second
run generates. -/
theorem repairEvents_idempotent_witness :
    repairEvents (fun _ => "gid2") "t2"
        (repairEvents (fun _ => "gid") "t"
          [{ id := "", title := "", date := "2026-05-01", description := "", createdAt := "" }])
      = repairEvents (fun _ => "gid") "t"
          [{ id := "", title := "", date := "2026-05-01", description := "", createdAt := "" }] :=
  (repairEvents_idempotent (fun _ => "gid") "t"
    [{ id := "", title := "", date := "2026-05-01", description := "", createdAt := "" }]
    (fun i => (by decide : ("gid" : String) ≠ "")) (by decide)).1 (fun _ => "gid2") "t2"

/-- `updateEvent` never changes the sequence of ids (the updated copy
keeps its id). -/
theorem updateEvent_map_id (eventId title dateString descr : String) (l : List Event) :
    (updateEvent eventId title dateString descr l).2.map Event.id = l.map Event.id := by
  induction l with
  | nil => rfl
  | cons a t ih =>
    unfold updateEvent
    split
    · simp
    · simp [ih]

/-- The store after `deleteEvent` is a sublist of the store before. -/
theorem deleteEvent_sublist (eventId : String) (l : List Event) :
    (deleteEvent eventId l).2.Sublist l := by
  induction l with
  | nil => exact List.Sublist.slnil
  | cons a t ih =>
    unfold deleteEvent
    split
    · exact List.sublist_cons_self a t
    · exact ih.cons₂ a

/-- Repair keeps the stored ids whenever they are present (truthy). -/
theorem repairEvents_map_id (gen : Nat → String) (nowIso : String) (l : List Event)
    (h : ∀ e ∈ l, e.id ≠ "") :
    (repairEvents gen nowIso l).map Event.id = l.map Event.id := by
  induction l generalizing gen with
  | nil => rfl
  | cons a t ih =>
    unfold repairEvents repairEvent
    simp only [List.map_cons]
    rw [jsOr_of_ne _ _ (h a (List.mem_cons_self a t)),
      ih (fun i => gen (i + 1)) (fun e he => h e (List.mem_cons_of_mem a he))]

/-- Claim C8 (amended): id-uniqueness is preserved by `updateEvent`
always (the id sequence is unchanged) and by `deleteEvent` always (the
store shrinks to a sublist); `addEvent` preserves it provided the freshly
generated id is not already stored, and the startup repair preserves it
provided the stored records already carry their (distinct) ids — the
code itself never checks uniqueness. -/
theorem eventIds_nodup_preserved (gen nowIso eventId title dateString descr : String)
    (g : Nat → String) (events stored : List Event) :
    ((events.map Event.id).Nodup →
      (((updateEvent eventId title dateString descr events).2.map Event.id).Nodup)) ∧
    ((events.map Event.id).Nodup →
      (((deleteEvent eventId events).2.map Event.id).Nodup)) ∧
    ((events.map Event.id).Nodup → gen ∉ events.map Event.id →
      (((addEvent gen nowIso events title dateString descr).2.map Event.id).Nodup)) ∧
    ((∀ e ∈ stored, e.id ≠ "") →
      (repairEvents g nowIso stored).map Event.id = stored.map Event.id) := by
  refine ⟨?_, ?_, ?_, ?_⟩
  · intro hnd
    rw [updateEvent_map_id]
    exact hnd
  · intro hnd
    exact List.Nodup.sublist ((deleteEvent_sublist eventId events).map Event.id) hnd
  · intro hnd hfresh
    unfold addEvent
    simp only [List.map_append, List.map_cons, List.map_nil]
    simp [List.nodup_append, hnd, hfresh]
  · exact repairEvents_map_id g nowIso stored

/-- Counterexample to claim C8 as stated: `addEvent` appends the record
with whatever id `generateId` produced, without checking it against the
stored ids, so a collision with an existing id yields a store with two
records of the same id. -/
theorem addEvent_id_collision :
    ¬ (((addEvent "event_1700000000000_aaaaaaaaa" "t1"
          [{ id := "event_1700000000000_aaaaaaaaa", title := "Old", date := "2026-01-01",
             description := "", createdAt := "t0" }]
          "New Event" "2026-02-02" "").2.map Event.id).Nodup) := by
  decide

/-- Concrete instantiation of `eventIds_nodup_preserved`: uniqueness is
kept by delete, by add with a fresh id, and by a repair of records with
present ids. -/
theorem eventIds_nodup_preserved_witness :
    (((deleteEvent "a"
        [{ id := "a", title := "T", date := "2026-01-01", description := "", createdAt := "c" }]).2.map
          Event.id).Nodup) ∧
    (((addEvent "b" "t"
        [{ id := "a", title := "T", date := "2026-01-01", description := "", createdAt := "c" }]
        "Title" "2026-01-02" "").2.map Event.id).Nodup) ∧
    (repairEvents (fun _ => "g") "t"
        [{ id := "a", title := "T", date := "2026-01-01", description := "", createdAt := "c" }]).map
          Event.id
      = [{ id := "a", title := "T", date := "2026-01-01", description := "",
           createdAt := "c" }].map Event.id :=
  ⟨(eventIds_nodup_preserved "b" "t" "a" "Title" "2026-01-02" "" (fun _ => "g") _ []).2.1
      (by decide),
   (eventIds_nodup_preserved "b" "t" "a" "Title" "2026-01-02" "" (fun _ => "g") _ []).2.2.1
      (by decide) (by decide),
   (eventIds_nodup_preserved "b" "t" "a" "Title" "2026-01-02" "" (fun _ => "g") []
      [{ id := "a", title := "T", date := "2026-01-01", description := "", createdAt := "c" }]).2.2.2
      (by decide)⟩

/-- `localStorage.setItem` only ever adds marker keys during the loop:
the final marker set contains the initial one. -/
theorem remindersLoop_kv_mono (td : Int) (ts : String) (es : List Event) :
    ∀ kv : List String, kv ⊆ (remindersLoop td ts es kv).2 := by
  induction es with
  | nil => intro kv x hx; exact hx
  | cons a t ih =>
    intro kv x hx
    by_cases hd : dateKey a.date = td
    · by_cases hk : reminderKey a.id ts ∈ kv
      · simp only [remindersLoop]
        rw [if_pos hd, if_pos hk]
        exact ih kv hx
      · simp only [remindersLoop]
        rw [if_pos hd, if_neg hk]
        dsimp only
        exact ih _ (List.mem_cons_of_mem _ hx)
    · simp only [remindersLoop]
      rw [if_neg hd]
      exact ih kv hx

/-- Every reminder the loop sends is for a listed event whose date is
today and whose marker key was absent when the loop started, and its
marker key is recorded in the final store. -/
theorem remindersLoop_sent_spec (td : Int) (ts : String) (es : List Event) :
    ∀ kv e, e ∈ (remindersLoop td ts es kv).1 →
      e ∈ es ∧ dateKey e.date = td ∧ reminderKey e.id ts ∉ kv ∧
      reminderKey e.id ts ∈ (remindersLoop td ts es kv).2 := by
  induction es with
  | nil =>
    intro kv e he
    simp [remindersLoop] at he
  | cons a t ih =>
    intro kv e he
    by_cases hd : dateKey a.date = td
    · by_cases hk : reminderKey a.id ts ∈ kv
      · simp only [remindersLoop] at he ⊢
        rw [if_pos hd, if_pos hk] at he ⊢
        obtain ⟨h1, h2, h3, h4⟩ := ih kv e he
        exact ⟨List.mem_cons_of_mem a h1, h2, h3, h4⟩
      · simp only [remindersLoop] at he ⊢
        rw [if_pos hd, if_neg hk] at he ⊢
        dsimp only at he ⊢
        rcases List.mem_cons.mp he with rfl | he2
        · refine ⟨List.mem_cons_self e t, hd, hk, ?_⟩
          exact remindersLoop_kv_mono td ts t _ (List.mem_cons_self _ _)
        · obtain ⟨h1, h2, h3, h4⟩ := ih _ e he2
          refine ⟨List.mem_cons_of_mem a h1, h2, ?_, h4⟩
          intro hx
          exact h3 (List.mem_cons_of_mem _ hx)
    · simp only [remindersLoop] at he ⊢
      rw [if_neg hd] at he ⊢
      obtain ⟨h1, h2, h3, h4⟩ := ih kv e he
      exact ⟨List.mem_cons_of_mem a h1, h2, h3, h4⟩

/-- When every today-event is already marked, the loop sends nothing and
leaves the marker store unchanged. -/
theorem remindersLoop_all_marked (td : Int) (ts : String) (es : List Event) :
    ∀ kv, (∀ e ∈ es, dateKey e.date = td → reminderKey e.id ts ∈ kv) →
      remindersLoop td ts es kv = ([], kv) := by
  induction es with
  | nil => intro kv _; rfl
  | cons a t ih =>
    intro kv h
    by_cases hd : dateKey a.date = td
    · have hk : reminderKey a.id ts ∈ kv := h a (List.mem_cons_self a t) hd
      simp only [remindersLoop]
      rw [if_pos hd, if_pos hk]
      exact ih kv (fun e he hdate => h e (List.mem_cons_of_mem a he) hdate)
    · simp only [remindersLoop]
      rw [if_neg hd]
      exact ih kv (fun e he hdate => h e (List.mem_cons_of_mem a he) hdate)

/-- After a run of the loop, every today-event in the list is marked. -/
theorem remindersLoop_marks_all (td : Int) (ts : String) (es : List Event) :
    ∀ kv, ∀ e ∈ es, dateKey e.date = td →
      reminderKey e.id ts ∈ (remindersLoop td ts es kv).2 := by
  induction es with
  | nil =>
    intro kv e he
    simp at he
  | cons a t ih =>
    intro kv e he hd
    rcases List.mem_cons.mp he with rfl | he2
    · by_cases hk : reminderKey e.id ts ∈ kv
      · simp only [remindersLoop]
        rw [if_pos hd, if_pos hk]
        exact remindersLoop_kv_mono td ts t kv hk
      · simp only [remindersLoop]
        rw [if_pos hd, if_neg hk]
        dsimp only
        exact remindersLoop_kv_mono td ts t _ (List.mem_cons_self _ _)
    · by_cases hd2 : dateKey a.date = td
      · by_cases hk : reminderKey a.id ts ∈ kv
        · simp only [remindersLoop]
          rw [if_pos hd2, if_pos hk]
          exact ih kv e he2 hd
        · simp only [remindersLoop]
          rw [if_pos hd2, if_neg hk]
          dsimp only
          exact ih _ e he2 hd
      · simp only [remindersLoop]
        rw [if_neg hd2]
        exact ih kv e he2 hd

/-- No reminder is sent for an id whose marker is already present. -/
theorem remindersLoop_no_sent_of_marked (td : Int) (ts : String) (es : List Event)
    (kv : List String) (i : String) (hk : reminderKey i ts ∈ kv) :
    ∀ e ∈ (remindersLoop td ts es kv).1, e.id ≠ i := by
  intro e he hei
  obtain ⟨_, _, h3, _⟩ := remindersLoop_sent_spec td ts es kv e he
  rw [hei] at h3
  exact h3 hk

/-- Within one run, at most one reminder is sent per event id: once an
event with a given id is sent, its marker is set before the rest of the
list is processed. -/
theorem remindersLoop_at_most_one (td : Int) (ts : String) (es : List Event) :
    ∀ (kv : List String) (i : String),
      ((remindersLoop td ts es kv).1.filter (fun e => e.id == i)).length ≤ 1 := by
  induction es with
  | nil =>
    intro kv i
    simp [remindersLoop]
  | cons a t ih =>
    intro kv i
    by_cases hd : dateKey a.date = td
    · by_cases hk : reminderKey a.id ts ∈ kv
      · simp only [remindersLoop]
        rw [if_pos hd, if_pos hk]
        exact ih kv i
      · simp only [remindersLoop]
        rw [if_pos hd, if_neg hk]
        dsimp only
        rw [List.filter_cons]
        by_cases hai : a.id = i
        · subst hai
          have hempty :
              (remindersLoop td ts t (reminderKey a.id ts :: kv)).1.filter
                (fun e => e.id == a.id) = [] := by
            rw [List.filter_eq_nil_iff]
            intro e he
            have hne := remindersLoop_no_sent_of_marked td ts t
              (reminderKey a.id ts :: kv) a.id (List.mem_cons_self _ _) e he
            simp [hne]
          rw [if_pos (by simp : (a.id == a.id) = true), hempty]
          simp
        · rw [if_neg (by simp [hai] : ¬ ((a.id == i) = true))]
          exact ih _ i
    · simp only [remindersLoop]
      rw [if_neg hd]
      exact ih kv i

/-- Claim C10: `checkAndSendReminders` sends a reminder only for events
whose date is today and whose per-id-and-day marker key is absent; it
records the marker for everything it sends; it sends at most one
reminder per event id in a run; and a second invocation on the same day
over the same store sends nothing at all. -/
theorem checkAndSendReminders_correct (td : Int) (ts : String)
    (events : List Event) (kv : List String) :
    (∀ e, e ∈ (checkAndSendReminders td ts events kv).1 →
      e ∈ events ∧ dateKey e.date = td ∧ reminderKey e.id ts ∉ kv ∧
      reminderKey e.id ts ∈ (checkAndSendReminders td ts events kv).2) ∧
    (∀ i : String,
      ((checkAndSendReminders td ts events kv).1.filter (fun e => e.id == i)).length ≤ 1) ∧
    (checkAndSendReminders td ts events (checkAndSendReminders td ts events kv).2).1 = [] := by
  refine ⟨?_, ?_, ?_⟩
  · intro e he
    obtain ⟨h1, h2, h3, h4⟩ := remindersLoop_sent_spec td ts (getSortedEvents events) kv e he
    exact ⟨(getSortedEvents_perm events).mem_iff.mp h1, h2, h3, h4⟩
  · intro i
    exact remindersLoop_at_most_one td ts (getSortedEvents events) kv i
  · unfold checkAndSendReminders
    rw [remindersLoop_all_marked td ts (getSortedEvents events) _
      (fun e he hd => remindersLoop_marks_all td ts (getSortedEvents events) kv e he hd)]

/-- Concrete instantiation of `checkAndSendReminders_correct`: a single
today-event with an empty marker store gets its reminder sent and its
marker recorded. -/
theorem checkAndSendReminders_correct_witness :
    ({ id := "e1", title := "Party", date := "2026-01-10", description := "",
       createdAt := "t0" } : Event)
      ∈ [({ id := "e1", title := "Party", date := "2026-01-10", description := "",
            createdAt := "t0" } : Event)] ∧
    dateKey "2026-01-10" = 739931 ∧
    reminderKey "e1" "2026-01-10" ∉ ([] : List String) ∧
    reminderKey "e1" "2026-01-10"
      ∈ (checkAndSendReminders 739931 "2026-01-10"
          [{ id := "e1", title := "Party", date := "2026-01-10", description := "",
             createdAt := "t0" }] []).2 :=
  (checkAndSendReminders_correct 739931 "2026-01-10"
    [{ id := "e1", title := "Party", date := "2026-01-10", description := "", createdAt := "t0" }]
    []).1
    { id := "e1", title := "Party", date := "2026-01-10", description := "", createdAt := "t0" }
    (by decide)
